import Mathlib

/-!
Shallow embedding of the Numina AI Agent instruction-parsing pipeline and rule
store (`src/services/geminiService.ts`, `src/services/ruleParser.ts`, the
`RuleStorage` class and the server-side route variant), with proofs settling
the specification's claims about them.

Modelling conventions:
* JavaScript strings are `String` at the API boundary and `List Char` inside
  the scanning helpers.
* JavaScript numbers occurring in rules are `Rat` (no NaN/Infinity arises on
  the embedded code paths).
* `uuidv4()` is modelled as a fresh-counter identifier supply (`nextId`).
* `new Date().toISOString()` is modelled as an explicit `now` argument.
* `localStorage` holds JSON text under two keys; the store state is modelled
  as the parsed content of those keys plus the identifier counter.
-/

namespace Numina

/-- Whitespace as recognised by JavaScript `String.prototype.trim` (the
common members of the WhiteSpace / LineTerminator productions). -/
def jsWs (c : Char) : Bool :=
  c == ' ' || c == '\t' || c == '\n' || c == '\x0b' || c == '\x0c' || c == '\r' ||
  c == '\xa0' || c == '\u2028' || c == '\u2029' || c == '\uFEFF'

/-- JavaScript `s.trim()`. -/
def jsTrim (l : List Char) : List Char :=
  ((l.dropWhile jsWs).reverse.dropWhile jsWs).reverse

/-- JavaScript `s.toLowerCase()` (ASCII-adequate for the keyword tables used
by the heuristic extractor). -/
def jsLower (l : List Char) : List Char := l.map Char.toLower

/-- Does the list start with the given needle? -/
def startsList : List Char → List Char → Bool
  | _, [] => true
  | [], _ :: _ => false
  | c :: l, d :: p => c == d && startsList l p

/-- JavaScript `hay.includes(needle)`. -/
def jsIncludes : List Char → List Char → Bool
  | [], needle => needle.isEmpty
  | c :: l, needle => startsList (c :: l) needle || jsIncludes l needle

/-- The suffix of `hay` after the first occurrence of `needle`
(`none` when `needle` does not occur). -/
def afterFirst : List Char → List Char → Option (List Char)
  | [], needle => if needle.isEmpty then some [] else none
  | c :: l, needle =>
    if startsList (c :: l) needle then some ((c :: l).drop needle.length)
    else afterFirst l needle

/-- Test of the regular expression `a.*b` for literal words `a`, `b`:
an occurrence of `a` followed, at or after its end, by an occurrence of `b`. -/
def seqMatch (s a b : List Char) : Bool :=
  match afterFirst s a with
  | none => false
  | some rest => jsIncludes rest b

/-- Index of the last occurrence of `c`. -/
def lastIdxOf (c : Char) : List Char → Option Nat
  | [] => none
  | x :: l =>
    match lastIdxOf c l with
    | some k => some (k + 1)
    | none => if x == c then some 0 else none

/-- The match of the greedy regular expression `\{[\s\S]*\}` against `cs`, as
used by `parseGeminiResponse`: the substring running from the first `'{'`
through the last `'}'`, provided some `'}'` occurs after the first `'{'`. -/
def jsMatchGreedy (cs : List Char) : Option (List Char) :=
  let rest := cs.dropWhile (fun c => !(c == '{'))
  match lastIdxOf '}' rest with
  | none => none
  | some k => some (rest.take (k + 1))

/-- Depth-counting scan used by `specFirstBalanced`: collects characters up to
and including the brace closing the opening brace at the head. -/
def balancedScan : List Char → Nat → Option (List Char)
  | [], _ => none
  | c :: l, d =>
    if c == '{' then (balancedScan l (d + 1)).map (fun t => c :: t)
    else if c == '}' then
      if d == 1 then some [c] else (balancedScan l (d - 1)).map (fun t => c :: t)
    else (balancedScan l d).map (fun t => c :: t)

/-- Modelled from the spec: "extract the first balanced top-level `{...}`
substring from the response" by balanced-brace scanning.  This definition
follows the spec's words (the refinement comparator for claim C3), not the
source, which uses the greedy regular expression modelled by
`jsMatchGreedy`. -/
def specFirstBalanced (cs : List Char) : Option (List Char) :=
  balancedScan (cs.dropWhile (fun c => !(c == '{'))) 0

/-- JSON values, as produced by `JSON.parse`.  This type is only pattern
matched and traversed (extraction and validation); it is never compared for
equality, so no `DecidableEq` instance is needed. -/
inductive JsValue where
  | null : JsValue
  | bool (b : Bool) : JsValue
  | num (q : Rat) : JsValue
  | str (s : String) : JsValue
  | arr (elems : List JsValue) : JsValue
  | obj (fields : List (String × JsValue)) : JsValue

/-- The value carried by a rule condition.  The spec's data model restricts
condition values to "scalar|sequence"; that restriction is adopted here so
that structural equality on conditions (JavaScript's
`JSON.stringify(a) === JSON.stringify(b)` comparison in `saveRule`) is
decidable by derivation. -/
inductive CondValue where
  | null : CondValue
  | bool (b : Bool) : CondValue
  | num (q : Rat) : CondValue
  | str (s : String) : CondValue
  | strList (ss : List String) : CondValue
  | numList (qs : List Rat) : CondValue
deriving DecidableEq, Repr

/-- A condition of a rule (`{field, operator, value, logical_operator?}`). -/
structure Condition where
  field : String
  operator : String
  value : CondValue
  logical_operator : Option String := none
deriving DecidableEq, Repr

/-- The `ParsedRule` shape (ephemeral output of parsing). -/
structure ParsedRule where
  rule_type : String
  conditions : List Condition
  action : String
  reason : String
  confidence_score : Rat
deriving DecidableEq, Repr

/-- The `ConversionResult` shape.  JavaScript's optional object fields are
modelled with `Option`. -/
structure ConversionResult where
  success : Bool
  rule : Option ParsedRule := none
  error : Option String := none
  suggestions : Option (List String) := none
deriving DecidableEq, Repr

/-! ### A model of `JSON.parse`

The source calls the JavaScript builtin `JSON.parse`; it is modelled here by a
recursive-descent parser over `List Char` (fuel-indexed for termination).
Minor simplifications that no proof depends on: the leading-zero restriction
on JSON numbers is not enforced, and raw control characters inside string
literals are accepted. -/

/-- JSON insignificant whitespace. -/
def skipWs (cs : List Char) : List Char :=
  cs.dropWhile (fun c => c == ' ' || c == '\t' || c == '\n' || c == '\r')

/-- Value of a hexadecimal digit. -/
def hexVal (c : Char) : Option Nat :=
  if c.isDigit then some (c.toNat - '0'.toNat)
  else if 'a' ≤ c ∧ c ≤ 'f' then some (c.toNat - 'a'.toNat + 10)
  else if 'A' ≤ c ∧ c ≤ 'F' then some (c.toNat - 'A'.toNat + 10)
  else none

/-- Single-character JSON string escapes. -/
def escChar (e : Char) : Option Char :=
  if e == '"' then some '"'
  else if e == '\\' then some '\\'
  else if e == '/' then some '/'
  else if e == 'n' then some '\n'
  else if e == 't' then some '\t'
  else if e == 'r' then some '\r'
  else if e == 'b' then some '\x08'
  else if e == 'f' then some '\x0c'
  else none

/-- Body of a JSON string literal (after the opening quote): the decoded
characters and the remaining input after the closing quote. -/
def strBody : List Char → Option (List Char × List Char)
  | [] => none
  | '"' :: rest => some ([], rest)
  | '\\' :: 'u' :: a :: b :: c :: d :: rest =>
    match hexVal a, hexVal b, hexVal c, hexVal d with
    | some x, some y, some z, some w =>
      (strBody rest).map (fun p => (Char.ofNat (((x * 16 + y) * 16 + z) * 16 + w) :: p.1, p.2))
    | _, _, _, _ => none
  | '\\' :: e :: rest =>
    match escChar e with
    | some c => (strBody rest).map (fun p => (c :: p.1, p.2))
    | none => none
  | c :: rest => (strBody rest).map (fun p => (c :: p.1, p.2))

/-- Digits to a natural number. -/
def natOfDigits (ds : List Char) : Nat :=
  ds.foldl (fun n c => 10 * n + (c.toNat - '0'.toNat)) 0

/-- Exponent tail of a JSON number (after `e`/`E`). -/
def jsonExpTail (q : Rat) (t : List Char) : Option (Rat × List Char) :=
  let sgnT : Int × List Char :=
    match t with
    | '+' :: u => (1, u)
    | '-' :: u => (-1, u)
    | _ => (1, t)
  let es := sgnT.2.takeWhile Char.isDigit
  if es.isEmpty then none
  else
    let e : Nat := natOfDigits es
    let q' := if sgnT.1 = 1 then q * (10 : Rat) ^ e else q / (10 : Rat) ^ e
    some (q', sgnT.2.drop es.length)

/-- Optional exponent part of a JSON number. -/
def jsonExp (q : Rat) (cs : List Char) : Option (Rat × List Char) :=
  match cs with
  | 'e' :: t => jsonExpTail q t
  | 'E' :: t => jsonExpTail q t
  | _ => some (q, cs)

/-- A JSON number starting at the head of the input. -/
def jsonNum (cs : List Char) : Option (JsValue × List Char) :=
  let negT : Bool × List Char :=
    match cs with
    | '-' :: t => (true, t)
    | _ => (false, cs)
  let ds := negT.2.takeWhile Char.isDigit
  if ds.isEmpty then none
  else
    let rest1 := negT.2.drop ds.length
    let base : Rat := (natOfDigits ds : Nat)
    let step2 : Option (Rat × List Char) :=
      match rest1 with
      | '.' :: t =>
        let fs := t.takeWhile Char.isDigit
        if fs.isEmpty then none
        else some (base + (natOfDigits fs : Rat) / (10 : Rat) ^ fs.length, t.drop fs.length)
      | _ => some (base, rest1)
    match step2 with
    | none => none
    | some (q, rest2) =>
      match jsonExp q rest2 with
      | none => none
      | some (q2, rest3) => some (.num (if negT.1 then -q2 else q2), rest3)

mutual

/-- A JSON value starting at the head of the input (fuel-indexed). -/
def jsonVal : Nat → List Char → Option (JsValue × List Char)
  | 0, _ => none
  | fuel + 1, cs =>
    match skipWs cs with
    | 't' :: 'r' :: 'u' :: 'e' :: rest => some (.bool true, rest)
    | 'f' :: 'a' :: 'l' :: 's' :: 'e' :: rest => some (.bool false, rest)
    | 'n' :: 'u' :: 'l' :: 'l' :: rest => some (.null, rest)
    | '"' :: rest => (strBody rest).map (fun p => (.str (String.mk p.1), p.2))
    | '[' :: rest =>
      (match skipWs rest with
       | ']' :: rest2 => some (.arr [], rest2)
       | _ => (jsonItems fuel rest).map (fun p => (.arr p.1, p.2)))
    | '{' :: rest =>
      (match skipWs rest with
       | '}' :: rest2 => some (.obj [], rest2)
       | _ => (jsonFields fuel rest).map (fun p => (.obj p.1, p.2)))
    | cs' => jsonNum cs'

/-- Comma-separated JSON array items up to the closing bracket. -/
def jsonItems : Nat → List Char → Option (List JsValue × List Char)
  | 0, _ => none
  | fuel + 1, cs =>
    match jsonVal fuel cs with
    | none => none
    | some (v, rest) =>
      match skipWs rest with
      | ',' :: rest2 => (jsonItems fuel rest2).map (fun p => (v :: p.1, p.2))
      | ']' :: rest2 => some ([v], rest2)
      | _ => none

/-- Comma-separated JSON object members up to the closing brace. -/
def jsonFields : Nat → List Char → Option (List (String × JsValue) × List Char)
  | 0, _ => none
  | fuel + 1, cs =>
    match skipWs cs with
    | '"' :: rest =>
      (match strBody rest with
       | none => none
       | some (k, rest1) =>
         match skipWs rest1 with
         | ':' :: rest2 =>
           (match jsonVal fuel rest2 with
            | none => none
            | some (v, rest3) =>
              match skipWs rest3 with
              | ',' :: rest4 => (jsonFields fuel rest4).map (fun p => ((String.mk k, v) :: p.1, p.2))
              | '}' :: rest4 => some ([(String.mk k, v)], rest4)
              | _ => none)
         | _ => none)
    | _ => none

end

/-- The model of `JSON.parse` applied to the extracted substring: a single
JSON value followed only by whitespace, or failure. -/
def jsonParse (cs : List Char) : Option JsValue :=
  match jsonVal (2 * cs.length + 2) cs with
  | some (v, rest) => if (skipWs rest).isEmpty then some v else none
  | none => none

/-! ### Validation of the model response (`validateParsedRule`) -/

/-- JavaScript property access `j[k]` on a parsed JSON value: `none` models
`undefined` (also for access on a non-object).  For duplicate keys the last
occurrence wins, as in `JSON.parse`. -/
def jsGet (j : JsValue) (k : String) : Option JsValue :=
  match j with
  | .obj fs => (fs.reverse.find? (fun e => e.1 == k)).map (fun e => e.2)
  | _ => none

/-- JavaScript truthiness of a parsed JSON value. -/
def jsTruthy : JsValue → Bool
  | .null => false
  | .bool b => b
  | .num q => !(q == 0)
  | .str s => !(s == "")
  | .arr _ => true
  | .obj _ => true

/-- `typeof x === 'string'` on an optional property. -/
def isStrProp : Option JsValue → Bool
  | some (.str _) => true
  | _ => false

/-- The per-condition check inside `validateParsedRule`:
`condition.field && condition.operator && condition.value !== undefined`. -/
def condOk (c : JsValue) : Bool :=
  (jsGet c "field").elim false jsTruthy &&
  (jsGet c "operator").elim false jsTruthy &&
  (jsGet c "value").isSome

/-- `validateParsedRule` from the source: the structural type-guard applied to
the JSON value parsed out of the model response. -/
def validateParsedRule (j : JsValue) : Bool :=
  jsTruthy j &&
  isStrProp (jsGet j "rule_type") &&
  (match jsGet j "conditions" with
   | some (.arr _) => true
   | _ => false) &&
  isStrProp (jsGet j "action") &&
  isStrProp (jsGet j "reason") &&
  (match jsGet j "confidence_score" with
   | some (.num q) => decide (0 ≤ q) && decide (q ≤ 1)
   | _ => false) &&
  (match jsGet j "conditions" with
   | some (.arr cs) => cs.all condOk
   | _ => false)

/-- Condition values of the validated response, coerced into the spec's
scalar-or-sequence domain (values outside it do not occur on the embedded
paths and are mapped to `null`). -/
def condValueOfJson : JsValue → CondValue
  | .null => .null
  | .bool b => .bool b
  | .num q => .num q
  | .str s => .str s
  | .arr elems =>
    .strList (elems.map (fun v => match v with | .str s => s | _ => ""))
  | .obj _ => .null

/-- Optional string property, defaulting to the empty string. -/
def optStr (o : Option JsValue) : String :=
  match o with
  | some (.str s) => s
  | _ => ""

/-- Optional numeric property, defaulting to zero. -/
def optNum (o : Option JsValue) : Rat :=
  match o with
  | some (.num q) => q
  | _ => 0

/-- A condition object of the validated response as a `Condition` (on the
validated path the lookups are exact). -/
def condOfJson (c : JsValue) : Condition :=
  { field := optStr (jsGet c "field")
    operator := optStr (jsGet c "operator")
    value := (jsGet c "value").elim .null condValueOfJson
    logical_operator :=
      match jsGet c "logical_operator" with
      | some (.str s) => some s
      | _ => none }

/-- The validated response as a `ParsedRule`. -/
def parsedRuleOfJson (j : JsValue) : ParsedRule :=
  { rule_type := optStr (jsGet j "rule_type")
    conditions :=
      match jsGet j "conditions" with
      | some (.arr cs) => cs.map condOfJson
      | _ => []
    action := optStr (jsGet j "action")
    reason := optStr (jsGet j "reason")
    confidence_score := optNum (jsGet j "confidence_score") }

/-! ### The heuristic extractor (`fallbackParsing` and its helpers) -/

/-- `extractAction`'s keyword table, in the source's iteration order. -/
def actionKeywordTable : List (String × List String) :=
  [("flag", ["flag", "mark", "highlight", "identify"]),
   ("review", ["review", "check", "examine", "investigate"]),
   ("reject", ["reject", "deny", "block", "prevent"]),
   ("approve", ["approve", "accept", "allow", "permit"])]

/-- `extractAction` from the source: the first keyword category with a
matching keyword; defaults to `"flag"`. -/
def extractAction (s : List Char) : String :=
  match actionKeywordTable.find? (fun e => e.2.any (fun k => jsIncludes s k.toList)) with
  | some e => e.1
  | none => "flag"

/-- `determineRuleType` from the source: ordered tests of the alternation
patterns (each alternative is literal words joined by `.*`; the input is
already lowercased, matching the `i` flag). -/
def determineRuleType (s : List Char) : Option String :=
  if seqMatch s "expense".toList "amount".toList || seqMatch s "amount".toList "above".toList ||
      seqMatch s "cost".toList "over".toList then
    some "expense_amount_threshold"
  else if seqMatch s "vendor".toList "frequency".toList ||
      seqMatch s "appears".toList "times".toList || seqMatch s "vendor".toList "day".toList then
    some "vendor_frequency"
  else if seqMatch s "category".toList "amount".toList || seqMatch s "tagged".toList "over".toList ||
      seqMatch s "categorized".toList "above".toList then
    some "category_amount_threshold"
  else if jsIncludes s "duplicate".toList || seqMatch s "same".toList "transaction".toList ||
      jsIncludes s "identical".toList then
    some "duplicate_detection"
  else if jsIncludes s "time".toList || jsIncludes s "after".toList ||
      jsIncludes s "before".toList || jsIncludes s "am".toList || jsIncludes s "pm".toList then
    some "time_based"
  else none

/-- The digits gathered by the `(?:,\d{3})*` part of the amount pattern,
with the remaining input. -/
def commaGroups : List Char → List Char × List Char
  | ',' :: a :: b :: c :: rest =>
    if a.isDigit && b.isDigit && c.isDigit then
      let p := commaGroups rest
      (a :: b :: c :: p.1, p.2)
    else ([], ',' :: a :: b :: c :: rest)
  | l => ([], l)

/-- Value captured by `(\d+(?:,\d{3})*(?:\.\d{2})?)` at a position where a
digit starts, after `parseFloat` with the commas removed. -/
def amountValueAt (cs : List Char) : Rat :=
  let ds := cs.takeWhile Char.isDigit
  let rest := cs.drop ds.length
  let p := commaGroups rest
  let intPart : Nat := natOfDigits (ds ++ p.1)
  match p.2 with
  | '.' :: a :: b :: _ =>
    if a.isDigit && b.isDigit then (intPart : Rat) + (natOfDigits [a, b] : Rat) / 100
    else (intPart : Rat)
  | _ => (intPart : Rat)

/-- Scan of `instruction.match(/\$?(\d+(?:,\d{3})*(?:\.\d{2})?)/)`: the
captured group always starts at the first digit of the input (the optional
`$` never changes the capture), so the first digit run wins. -/
def firstAmount : List Char → Option Rat
  | [] => none
  | c :: rest =>
    if c.isDigit then some (amountValueAt (c :: rest))
    else firstAmount rest

/-- `extractBasicConditions` from the source: at most one numeric condition,
from the first decimal-like token. -/
def extractBasicConditions (s : List Char) : List Condition :=
  match firstAmount s with
  | none => []
  | some q => [{ field := "amount", operator := "gt", value := .num q }]

/-- First character upper-cased (JavaScript
`action.charAt(0).toUpperCase() + action.slice(1)`). -/
def capFirst : List Char → List Char
  | [] => []
  | c :: l => c.toUpper :: l

/-- JavaScript `s.replace('_', ' ')`: only the first occurrence is
replaced. -/
def replaceFirstChar (t r : Char) : List Char → List Char
  | [] => []
  | c :: l => if c == t then r :: l else c :: replaceFirstChar t r l

/-- `fallbackParsing` from `geminiService.ts`: the heuristic extractor used
when the generation capability is unavailable or throws. -/
def fallbackParsing (instruction : String) : ConversionResult :=
  let n := jsTrim (jsLower instruction.toList)
  let action := extractAction n
  let ruleTypeOpt := determineRuleType n
  let conditions := extractBasicConditions n
  match ruleTypeOpt with
  | none =>
    { success := false
      error := some "Could not determine rule type. Please check your Gemini API configuration."
      suggestions := some
        ["Ensure VITE_GEMINI_API_KEY is set in your environment",
         "Try using more specific keywords like \"expense\", \"vendor\", \"category\"",
         "Include threshold amounts with $ symbol"] }
  | some rt =>
    { success := true
      rule := some
        { rule_type := rt
          conditions := conditions
          action := action
          reason := String.mk (capFirst action.toList) ++ " based on " ++
            String.mk (replaceFirstChar '_' ' ' rt.toList)
          confidence_score := (6 : Rat) / 10 } }

/-! ### The AI parser adapter (`GeminiService`) -/

/-- The three failure modes of `parseGeminiResponse`'s `try` block. -/
inductive GeminiParseErr where
  | noJson : GeminiParseErr
  | badJsonText : GeminiParseErr
  | invalidStructure : GeminiParseErr
deriving DecidableEq, Repr

/-- Message of each thrown error.  `badJsonText` is the engine-dependent
`JSON.parse` exception message, abstracted by a fixed placeholder (no claim
inspects it). -/
def geminiErrMessage : GeminiParseErr → String
  | .noJson => "No JSON found in response"
  | .badJsonText => "Unexpected token in JSON"
  | .invalidStructure => "Invalid rule structure from Gemini"

/-- The body of `parseGeminiResponse`'s `try` block: extraction by the greedy
regular expression, `JSON.parse`, then validation; each failure throws. -/
def parseGeminiResponseE (response : String) : Except GeminiParseErr ParsedRule :=
  match jsMatchGreedy response.toList with
  | none => .error .noJson
  | some m =>
    match jsonParse m with
    | none => .error .badJsonText
    | some j =>
      if validateParsedRule j then .ok (parsedRuleOfJson j)
      else .error .invalidStructure

/-- The suggestions attached to a response-handling failure. -/
def aiFailureSuggestions : List String :=
  ["Try rephrasing your instruction more clearly",
   "Include specific amounts, categories, or conditions",
   "Use clear action words like \"flag\", \"review\", \"reject\", or \"approve\""]

/-- `parseGeminiResponse` from the source: the `catch` turning any thrown
error into a structured failure result.  (The `originalInstruction` parameter
of the source function is unused there and omitted here.) -/
def parseGeminiResponse (response : String) : ConversionResult :=
  match parseGeminiResponseE response with
  | .ok r => { success := true, rule := some r }
  | .error e =>
    { success := false
      error := some ("Failed to parse AI response: " ++ geminiErrMessage e)
      suggestions := some aiFailureSuggestions }

/-- Outcome of the external generation capability for one call:
`unavailable` models `this.model === null`, `genError` a thrown
network/API error, and `text` a returned response string. -/
inductive GenOutcome where
  | unavailable : GenOutcome
  | genError : GenOutcome
  | text (response : String) : GenOutcome

/-- `GeminiService.parseInstruction` from the source, with the generation
call's outcome made explicit. -/
def parseInstructionG (gen : GenOutcome) (instruction : String) : ConversionResult :=
  match gen with
  | .unavailable => fallbackParsing instruction
  | .genError => fallbackParsing instruction
  | .text response => parseGeminiResponse response

/-! ### The orchestrator (`RuleParser.parseInstruction`) -/

/-- `RuleParser.parseInstruction` from the source: the empty-instruction
guard, then delegation to the adapter (which is total, so the defensive outer
`catch` is unreachable). -/
def ruleParserParse (gen : GenOutcome) (instruction : String) : ConversionResult :=
  if (jsTrim instruction.toList).isEmpty then
    { success := false
      error := some "Instruction cannot be empty"
      suggestions := some ["Please provide a clear audit instruction"] }
  else parseInstructionG gen instruction

/-! ### The rule store (`RuleStorage`) -/

/-- A persisted `AuditRule`. -/
structure AuditRule where
  id : Nat
  version : Int
  rule_type : String
  conditions : List Condition
  action : String
  reason : String
  original_instruction : String
  created_at : String
  created_by : String
  is_active : Bool
  confidence_score : Rat
deriving DecidableEq, Repr

/-- An entry of the append-only version-history log. -/
structure HistoryEntry where
  rule_id : Nat
  rule_type : String
  version : Int
  timestamp : String
  created_by : String
  action : String
deriving DecidableEq, Repr

/-- The store state: the parsed contents of the two `localStorage` keys plus
the fresh-identifier counter modelling `uuidv4()`. -/
structure StorageState where
  rules : List AuditRule
  history : List HistoryEntry
  nextId : Nat
deriving DecidableEq, Repr

/-- The `find` predicate of `saveRule`: same `rule_type`, active, and
`JSON.stringify`-equal `conditions` (modelled as structural equality). -/
def activeMatch (pr : ParsedRule) (r : AuditRule) : Bool :=
  decide (r.rule_type = pr.rule_type) && r.is_active && decide (r.conditions = pr.conditions)

/-- The version-history entry recorded by `saveVersionHistory`. -/
def histOf (r : AuditRule) : HistoryEntry :=
  { rule_id := r.id
    rule_type := r.rule_type
    version := r.version
    timestamp := r.created_at
    created_by := r.created_by
    action := "created" }

/-- `RuleStorage.saveRule` from the source.  When an active rule with the
same signature exists it is cloned into a next version (the clone is built
before the old rule is deactivated, so it is active) and the old one is
deactivated in place; otherwise a fresh version-1 rule is appended. -/
def saveRule (pr : ParsedRule) (originalInstruction createdBy now : String)
    (s : StorageState) : AuditRule × StorageState :=
  match s.rules.find? (activeMatch pr) with
  | some e =>
    let newRule : AuditRule :=
      { e with
        id := s.nextId
        version := e.version + 1
        original_instruction := originalInstruction
        created_at := now
        created_by := createdBy
        confidence_score := pr.confidence_score }
    let updated :=
      (s.rules.map fun r => if r.id = e.id then { e with is_active := false } else r) ++ [newRule]
    (newRule,
     { rules := updated, history := s.history ++ [histOf newRule], nextId := s.nextId + 1 })
  | none =>
    let newRule : AuditRule :=
      { id := s.nextId
        version := 1
        rule_type := pr.rule_type
        conditions := pr.conditions
        action := pr.action
        reason := pr.reason
        original_instruction := originalInstruction
        created_at := now
        created_by := createdBy
        is_active := true
        confidence_score := pr.confidence_score }
    (newRule,
     { rules := s.rules ++ [newRule], history := s.history ++ [histOf newRule],
       nextId := s.nextId + 1 })

/-- `RuleStorage.getAllRules`. -/
def getAllRules (s : StorageState) : List AuditRule := s.rules

/-- `RuleStorage.getActiveRules`. -/
def getActiveRules (s : StorageState) : List AuditRule :=
  s.rules.filter (fun r => r.is_active)

/-- JavaScript `Array.prototype.findIndex`, with `-1` modelled as `none`. -/
def findIndexB (p : α → Bool) : List α → Option Nat
  | [] => none
  | x :: l => if p x then some 0 else (findIndexB p l).map (fun i => i + 1)

/-- In-place update of the element at an index (no-op when out of range). -/
def modifyIdx (f : α → α) : Nat → List α → List α
  | _, [] => []
  | 0, x :: l => f x :: l
  | n + 1, x :: l => x :: modifyIdx f n l

/-- `RuleStorage.deactivateRule` from the source. -/
def deactivateRule (id : Nat) (s : StorageState) : Bool × StorageState :=
  match findIndexB (fun r => decide (r.id = id)) s.rules with
  | none => (false, s)
  | some i =>
    (true, { s with rules := modifyIdx (fun r => { r with is_active := false }) i s.rules })

/-- `RuleStorage.rollbackToVersion` from the source: no-op returning `null`
when no rule has the exact `(rule_type, version)`; otherwise every active
rule of that `rule_type` is deactivated and the (first found) target is
activated and returned. -/
def rollbackToVersion (ruleType : String) (version : Int) (s : StorageState) :
    Option AuditRule × StorageState :=
  match findIndexB (fun r => decide (r.rule_type = ruleType) && decide (r.version = version))
      s.rules with
  | none => (none, s)
  | some i =>
    let step1 := s.rules.map fun r =>
      if decide (r.rule_type = ruleType) && r.is_active then { r with is_active := false } else r
    let step2 := modifyIdx (fun r => { r with is_active := true }) i step1
    (step2[i]?, { s with rules := step2 })

/-- An element of an import payload: a decoded JSON object whose fields may
be absent.  `id` is `Option Nat` under the fresh-counter identifier model
(an absent or empty — falsy — identifier is `none`); the optional fields that
`importRules` never inspects are carried with their JavaScript-falsy defaults
standing in for `undefined`. -/
structure RawRule where
  id : Option Nat
  rule_type : String
  conditions : Option (List Condition)
  action : String
  version : Option Int
  reason : String := ""
  original_instruction : String := ""
  created_at : String := ""
  created_by : String := ""
  is_active : Bool := false
  confidence_score : Rat := 0
deriving DecidableEq, Repr

/-- A decoded import payload: `notArr` covers both a `JSON.parse` failure
(the `catch` branch) and a non-array value (the `Array.isArray` check). -/
inductive Payload where
  | notArr : Payload
  | arr (rs : List RawRule) : Payload

/-- Serialization of a stored rule (every field present). -/
def toRaw (r : AuditRule) : RawRule :=
  { id := some r.id
    rule_type := r.rule_type
    conditions := some r.conditions
    action := r.action
    version := some r.version
    reason := r.reason
    original_instruction := r.original_instruction
    created_at := r.created_at
    created_by := r.created_by
    is_active := r.is_active
    confidence_score := r.confidence_score }

/-- A decoded payload element as a stored rule (absent fields keep their
falsy defaults). -/
def toAuditRule (r : RawRule) : AuditRule :=
  { id := r.id.getD 0
    version := r.version.getD 0
    rule_type := r.rule_type
    conditions := r.conditions.getD []
    action := r.action
    reason := r.reason
    original_instruction := r.original_instruction
    created_at := r.created_at
    created_by := r.created_by
    is_active := r.is_active
    confidence_score := r.confidence_score }

/-- The element validation of `importRules`:
`rule.id && rule.rule_type && rule.conditions && rule.action &&
rule.version !== undefined` (truthiness of the first four, definedness of
the last). -/
def validRaw (r : RawRule) : Bool :=
  r.id.isSome && !(r.rule_type == "") && r.conditions.isSome && !(r.action == "") &&
    r.version.isSome

/-- `RuleStorage.importRules` from the source: all-or-nothing replacement of
the rules key after validating every element. -/
def importRules (p : Payload) (s : StorageState) : Bool × StorageState :=
  match p with
  | .notArr => (false, s)
  | .arr rs =>
    if rs.all validRaw then (true, { s with rules := rs.map toAuditRule })
    else (false, s)

/-- `RuleStorage.exportRules` from the source: the serialized dump of all
rules (pretty-printing does not change the decoded content). -/
def exportRules (s : StorageState) : Payload :=
  .arr (s.rules.map toRaw)

/-- `RuleStorage.clearAllRules` from the source: both `localStorage` keys are
removed (the identifier supply is unaffected). -/
def clearAllRules (s : StorageState) : StorageState :=
  { s with rules := [], history := [] }

/-! ### Concrete sample data used by witnesses and counterexamples -/

/-- A sample condition. -/
def sampleCond : Condition :=
  { field := "amount", operator := "gt", value := .num 100 }

/-- A sample parsed rule. -/
def samplePR : ParsedRule :=
  { rule_type := "expense_amount_threshold"
    conditions := [sampleCond]
    action := "flag"
    reason := "flagging large expenses"
    confidence_score := 1 }

/-- A sample stored rule. -/
def sampleRule : AuditRule :=
  { id := 7
    version := 1
    rule_type := "expense_amount_threshold"
    conditions := [sampleCond]
    action := "flag"
    reason := "flagging large expenses"
    original_instruction := "flag big expenses"
    created_at := "2025-01-01T00:00:00.000Z"
    created_by := "system"
    is_active := true
    confidence_score := 1 }

/-- A sample one-rule store. -/
def sampleState : StorageState :=
  { rules := [sampleRule], history := [histOf sampleRule], nextId := 8 }

/-- The empty store. -/
def emptyState : StorageState := { rules := [], history := [], nextId := 0 }

/-- A payload element whose `action` is missing (falsy). -/
def rawNoAction : RawRule :=
  { id := some 9
    rule_type := "expense_amount_threshold"
    conditions := some []
    action := ""
    version := some 1 }

/-- Claim C4's run: save, deactivate the saved rule, save again. -/
def c4save1 : AuditRule × StorageState := saveRule samplePR "i1" "u" "t1" emptyState

/-- Second step of claim C4's run. -/
def c4state2 : StorageState := (deactivateRule c4save1.1.id c4save1.2).2

/-- Third step of claim C4's run. -/
def c4save2 : AuditRule × StorageState := saveRule samplePR "i2" "u" "t2" c4state2

/-- Claim C5's degenerate store: two active rules with the same
`(rule_type, conditions)` signature (such a store is importable through
`importRules`, whose validation does not check active-uniqueness). -/
def c5A : AuditRule := { sampleRule with id := 10, version := 9 }

/-- Second rule of claim C5's degenerate store. -/
def c5B : AuditRule := { sampleRule with id := 11, version := 5 }

/-- Claim C5's degenerate store. -/
def c5S : StorageState := { rules := [c5A, c5B], history := [], nextId := 100 }

/-- First save of claim C5's run. -/
def c5save1 : AuditRule × StorageState := saveRule samplePR "i1" "u" "t1" c5S

/-- Second save of claim C5's run. -/
def c5save2 : AuditRule × StorageState := saveRule samplePR "i2" "u" "t2" c5save1.2

/-- Claim C10's store: two active rules sharing `rule_type` but with
different `conditions` (two lineages). -/
def c10A : AuditRule := { sampleRule with id := 1, version := 3 }

/-- Second lineage's active rule in claim C10's store. -/
def c10B : AuditRule := { sampleRule with id := 2, version := 1, conditions := [] }

/-- Claim C10's store. -/
def c10S : StorageState := { rules := [c10A, c10B], history := [], nextId := 3 }

end Numina

namespace Numina

/-! ### Helper lemmas -/

theorem dropWhile_eq_nil_of_all {p : Char → Bool} {l : List Char}
    (h : ∀ c ∈ l, p c = true) : l.dropWhile p = [] := by
  induction l with
  | nil => rfl
  | cons c t ih =>
    rw [List.dropWhile_cons, if_pos (h c (List.mem_cons_self c t))]
    exact ih fun x hx => h x (List.mem_cons_of_mem _ hx)

theorem jsTrim_eq_nil_of_all {l : List Char} (h : ∀ c ∈ l, jsWs c = true) :
    jsTrim l = [] := by
  unfold jsTrim
  rw [dropWhile_eq_nil_of_all h]
  rfl

theorem findIndexB_eq_none {p : α → Bool} {l : List α}
    (h : ∀ x ∈ l, p x = false) : findIndexB p l = none := by
  induction l with
  | nil => rfl
  | cons x t ih =>
    unfold findIndexB
    rw [h x (List.mem_cons_self x t)]
    simp only [Bool.false_eq_true, if_false]
    rw [ih fun y hy => h y (List.mem_cons_of_mem _ hy)]
    rfl

theorem findIndexB_lt_length {p : α → Bool} {l : List α} {i : Nat}
    (h : findIndexB p l = some i) : i < l.length := by
  induction l generalizing i with
  | nil => exact absurd h (by simp [findIndexB])
  | cons x t ih =>
    unfold findIndexB at h
    by_cases hp : p x
    · rw [if_pos hp] at h
      cases h
      simp
    · rw [if_neg hp] at h
      match hfi : findIndexB p t with
      | none => rw [hfi] at h; cases h
      | some j =>
        rw [hfi] at h
        cases h
        exact Nat.succ_lt_succ (ih hfi)

theorem modifyIdx_length (f : α → α) (i : Nat) (l : List α) :
    (modifyIdx f i l).length = l.length := by
  induction l generalizing i with
  | nil => cases i <;> rfl
  | cons x t ih =>
    cases i with
    | zero => simp [modifyIdx]
    | succ n => simp [modifyIdx, ih]

theorem getElem?_modifyIdx_ne (f : α → α) {i j : Nat} (l : List α) (h : j ≠ i) :
    (modifyIdx f i l)[j]? = l[j]? := by
  induction l generalizing i j with
  | nil => cases i <;> rfl
  | cons x t ih =>
    cases i with
    | zero =>
      cases j with
      | zero => exact absurd rfl h
      | succ m => simp [modifyIdx]
    | succ n =>
      cases j with
      | zero => simp [modifyIdx]
      | succ m =>
        simp only [modifyIdx, List.getElem?_cons_succ]
        exact ih fun hh => h (by rw [hh])

theorem find?_countP_unique {p : α → Bool} {l : List α} {e : α}
    (hf : l.find? p = some e) (hc : l.countP p ≤ 1) :
    ∀ r ∈ l, p r = true → r = e := by
  induction l with
  | nil => cases hf
  | cons x t ih =>
    by_cases hx : p x
    · have he : x = e := by
        rw [List.find?_cons_of_pos _ hx] at hf
        exact Option.some.inj hf
      have hct : t.countP p = 0 := by
        have hc' := hc
        rw [List.countP_cons_of_pos _ _ hx] at hc'
        omega
      intro r hr hp
      rcases List.mem_cons.mp hr with h1 | h2
      · rw [h1, he]
      · exfalso
        have : 0 < t.countP p := List.countP_pos_iff.mpr ⟨r, h2, hp⟩
        omega
    · rw [List.find?_cons_of_neg _ hx] at hf
      have hc2 : t.countP p ≤ 1 := by
        have hc' := hc
        rw [List.countP_cons_of_neg _ _ hx] at hc'
        exact hc'
      intro r hr hp
      rcases List.mem_cons.mp hr with h1 | h2
      · exact absurd (h1 ▸ hp) (by simpa using hx)
      · exact ih hf hc2 r h2 hp

theorem find?_append_none {p : α → Bool} {l₁ l₂ : List α}
    (h : l₁.find? p = none) : (l₁ ++ l₂).find? p = l₂.find? p := by
  rw [List.find?_append, h, Option.none_or]

theorem toAuditRule_toRaw (r : AuditRule) : toAuditRule (toRaw r) = r := rfl

/-! ### Claim theorems -/

/-- Claim C7: every empty or whitespace-only instruction is rejected by
`RuleParser.parseInstruction` with `success:false`, error exactly
"Instruction cannot be empty" and suggestion "Please provide a clear audit
instruction"; the result does not depend on the generation outcome, so no
downstream call to the AI adapter or heuristic extractor is made. -/
theorem C7_empty_instruction_rejected (gen : GenOutcome) (instruction : String)
    (h : ∀ c ∈ instruction.toList, jsWs c = true) :
    ruleParserParse gen instruction =
      { success := false
        error := some "Instruction cannot be empty"
        suggestions := some ["Please provide a clear audit instruction"] } := by
  unfold ruleParserParse
  rw [jsTrim_eq_nil_of_all h]
  rfl

/-- Witness for C7 at a whitespace-only instruction. -/
theorem C7_witness :
    ruleParserParse .unavailable "  " =
      { success := false
        error := some "Instruction cannot be empty"
        suggestions := some ["Please provide a clear audit instruction"] } :=
  C7_empty_instruction_rejected .unavailable "  " (by decide)

/-- Claim C8: when no rule with the exact `(rule_type, version)` exists,
`rollbackToVersion` returns `null` and leaves the whole store unchanged (in
particular every currently active rule of that type). -/
theorem C8_rollback_missing_version_noop (s : StorageState) (t : String) (v : Int)
    (h : ∀ r ∈ s.rules, ¬(r.rule_type = t ∧ r.version = v)) :
    rollbackToVersion t v s = (none, s) := by
  unfold rollbackToVersion
  rw [findIndexB_eq_none]
  intro r hr
  have hnr := h r hr
  rw [Bool.and_eq_false_iff]
  by_cases h1 : r.rule_type = t
  · right
    simp only [decide_eq_false_iff_not]
    exact fun h2 => hnr ⟨h1, h2⟩
  · left
    simp only [decide_eq_false_iff_not]
    exact h1

/-- Witness for C8 on the sample store, targeting an absent version. -/
theorem C8_witness :
    rollbackToVersion "expense_amount_threshold" 99 sampleState = (none, sampleState) :=
  C8_rollback_missing_version_noop sampleState "expense_amount_threshold" 99 (by decide)

/-- Claim C6: `importRules` returns `false` and writes nothing when the
payload is not an array or some element lacks a truthy `id`, `rule_type`,
`conditions` or `action` or a defined `version`; on a fully valid payload it
wholesale-replaces the store contents. -/
theorem C6_import_all_or_nothing (s : StorageState) (rs : List RawRule) :
    importRules .notArr s = (false, s) ∧
    ((∃ r ∈ rs, validRaw r = false) → importRules (.arr rs) s = (false, s)) ∧
    ((∀ r ∈ rs, validRaw r = true) →
      importRules (.arr rs) s = (true, { s with rules := rs.map toAuditRule })) := by
  refine ⟨rfl, ?_, ?_⟩
  · rintro ⟨r, hr, hv⟩
    have hall : rs.all validRaw = false := by
      rw [← Bool.not_eq_true, List.all_eq_true]
      intro hforall
      rw [hforall r hr] at hv
      cases hv
    simp [importRules, hall]
  · intro hforall
    have hall : rs.all validRaw = true := List.all_eq_true.mpr hforall
    simp [importRules, hall]

/-- Witness for C6: a payload whose second element misses `action` leaves the
sample store intact and returns `false`; the single-element valid payload
replaces the contents. -/
theorem C6_witness :
    importRules (.arr [toRaw sampleRule, rawNoAction]) sampleState = (false, sampleState) ∧
    importRules (.arr [toRaw sampleRule]) sampleState =
      (true, { sampleState with rules := [toAuditRule (toRaw sampleRule)] }) :=
  ⟨(C6_import_all_or_nothing sampleState [toRaw sampleRule, rawNoAction]).2.1
      ⟨rawNoAction, by decide, by decide⟩,
   (C6_import_all_or_nothing sampleState [toRaw sampleRule]).2.2 (by decide)⟩

/-- Claim C9: exporting, clearing, then importing the export succeeds and
reproduces the same `getAllRules` result (same rules, ids, fields, order),
for every store whose rules carry non-empty `rule_type` and `action` (as all
rules produced by `saveRule` from enum-valued parses do). -/
theorem C9_export_clear_import_roundtrip (s : StorageState)
    (h : ∀ r ∈ s.rules, ¬(r.rule_type = "") ∧ ¬(r.action = "")) :
    (importRules (exportRules s) (clearAllRules s)).1 = true ∧
    getAllRules (importRules (exportRules s) (clearAllRules s)).2 = getAllRules s := by
  have hval : (s.rules.map toRaw).all validRaw = true := by
    rw [List.all_eq_true]
    intro x hx
    obtain ⟨r, hr, rfl⟩ := List.mem_map.mp hx
    have hne := h r hr
    simp [validRaw, toRaw, hne.1, hne.2]
  have hmap : (s.rules.map toRaw).map toAuditRule = s.rules := by
    rw [List.map_map]
    exact List.map_id'' toAuditRule_toRaw s.rules
  constructor
  · simp [exportRules, clearAllRules, importRules, hval]
  · simp [exportRules, clearAllRules, importRules, getAllRules, hval, hmap]

/-- Witness for C9 on the sample store. -/
theorem C9_witness :
    (importRules (exportRules sampleState) (clearAllRules sampleState)).1 = true ∧
    getAllRules (importRules (exportRules sampleState) (clearAllRules sampleState)).2 =
      getAllRules sampleState :=
  C9_export_clear_import_roundtrip sampleState (by decide)

theorem dropWhile_to_marker {a t : List Char} (h : ∀ x ∈ a, x ≠ '{') :
    (a ++ '{' :: t).dropWhile (fun c => !(c == '{')) = '{' :: t := by
  induction a with
  | nil =>
    rw [List.nil_append, List.dropWhile_cons]
    simp
  | cons x xs ih =>
    rw [List.cons_append, List.dropWhile_cons]
    have hx : x ≠ '{' := h x (List.mem_cons_self _ _)
    rw [if_pos (by simp [hx])]
    exact ih fun y hy => h y (List.mem_cons_of_mem _ hy)

theorem lastIdxOf_eq_none {c : Char} {l : List Char} (h : ∀ x ∈ l, x ≠ c) :
    lastIdxOf c l = none := by
  induction l with
  | nil => rfl
  | cons x t ih =>
    have hx : (x == c) = false := by simp [h x (List.mem_cons_self _ _)]
    simp [lastIdxOf, ih fun y hy => h y (List.mem_cons_of_mem _ hy), hx]

theorem lastIdxOf_append_last {c : Char} {l t : List Char} (h : ∀ x ∈ t, x ≠ c) :
    lastIdxOf c (l ++ c :: t) = some l.length := by
  induction l with
  | nil => simp [lastIdxOf, lastIdxOf_eq_none h]
  | cons x xs ih => simp [lastIdxOf, ih]

theorem take_append_cons (l t : List Char) (c : Char) :
    (l ++ c :: t).take (l.length + 1) = l ++ [c] := by
  induction l with
  | nil => rfl
  | cons x xs ih =>
    rw [List.cons_append, List.length_cons, List.take_succ_cons, ih, List.cons_append]

/-- Claim C3 (amended): the response handling extracts the substring running
from the first `'{'` through the last `'}'` (the greedy regular expression,
not balanced-brace scanning), and when no `'{'` is followed anywhere later by
a `'}'` it fails with error "No JSON found in response". -/
theorem C3_amended_greedy_extraction :
    (∀ a b c : List Char, (∀ x ∈ a, x ≠ '{') → (∀ x ∈ c, x ≠ '}') →
      jsMatchGreedy (a ++ '{' :: (b ++ '}' :: c)) = some ('{' :: (b ++ ['}']))) ∧
    (∀ response : String, jsMatchGreedy response.toList = none →
      parseGeminiResponse response =
        { success := false
          error := some "Failed to parse AI response: No JSON found in response"
          suggestions := some aiFailureSuggestions }) := by
  constructor
  · intro a b c ha hc
    simp only [jsMatchGreedy]
    rw [dropWhile_to_marker ha]

    have h1 : ('{' :: (b ++ '}' :: c) : List Char) = ('{' :: b) ++ '}' :: c := by simp
    rw [h1, lastIdxOf_append_last hc]
    show some (List.take (('{' :: b).length + 1) (('{' :: b) ++ '}' :: c)) = _
    rw [take_append_cons]
    simp
  · intro resp h
    unfold parseGeminiResponse parseGeminiResponseE
    rw [h]
    rfl

/-- Witness for C3 (amended) on concrete inputs. -/
theorem C3_witness :
    jsMatchGreedy ("x ".toList ++ '{' :: ("ab".toList ++ '}' :: " cd".toList)) =
      some ('{' :: ("ab".toList ++ ['}'])) ∧
    parseGeminiResponse "no json at all" =
      { success := false
        error := some "Failed to parse AI response: No JSON found in response"
        suggestions := some aiFailureSuggestions } :=
  ⟨C3_amended_greedy_extraction.1 "x ".toList "ab".toList " cd".toList (by decide) (by decide),
   C3_amended_greedy_extraction.2 "no json at all" (by decide)⟩

/-- Counterexample to claim C3 as stated: on a response consisting of a
balanced JSON object followed by commentary containing braces, the code's
greedy extraction returns the substring up to the commentary's final brace,
not the first balanced object demanded by the spec's balanced-brace scan. -/
theorem C3_counterexample_greedy_vs_balanced :
    jsMatchGreedy ("\x7b\"a\":1\x7d tail \x7bx\x7d".toList) =
      some ("\x7b\"a\":1\x7d tail \x7bx\x7d".toList) ∧
    specFirstBalanced ("\x7b\"a\":1\x7d tail \x7bx\x7d".toList) =
      some ("\x7b\"a\":1\x7d".toList) ∧
    jsMatchGreedy ("\x7b\"a\":1\x7d tail \x7bx\x7d".toList) ≠
      specFirstBalanced ("\x7b\"a\":1\x7d tail \x7bx\x7d".toList) := by
  decide

/-- Counterexample to claim C1 as stated: with generation available and a
malformed response, the adapter returns a terminal structured failure, not
the heuristic extractor's result (which here is a success). -/
theorem C1_counterexample_no_fallthrough :
    parseInstructionG (.text "no braces here") "Flag every expense amount above $10" =
      { success := false
        error := some "Failed to parse AI response: No JSON found in response"
        suggestions := some aiFailureSuggestions } ∧
    (fallbackParsing "Flag every expense amount above $10").success = true ∧
    parseInstructionG (.text "no braces here") "Flag every expense amount above $10" ≠
      fallbackParsing "Flag every expense amount above $10" := by
  decide

/-- Claim C1 (amended): a malformed generated response (no JSON extractable,
JSON parse failure, or schema validation failure) makes `parseInstruction`
return a terminal `success:false` result with error
"Failed to parse AI response: <cause>" — it does not fall through to the
heuristic extractor; the fall-through happens exactly when the capability is
unavailable or the generation call itself throws, and no exception escapes
the adapter (every outcome yields a `ConversionResult`). -/
theorem C1_amended_malformed_is_structured_failure (instruction response : String)
    (e : GeminiParseErr) :
    (parseGeminiResponseE response = .error e →
      parseInstructionG (.text response) instruction =
        { success := false
          error := some ("Failed to parse AI response: " ++ geminiErrMessage e)
          suggestions := some aiFailureSuggestions }) ∧
    parseInstructionG .unavailable instruction = fallbackParsing instruction ∧
    parseInstructionG .genError instruction = fallbackParsing instruction := by
  refine ⟨fun h => ?_, rfl, rfl⟩
  simp only [parseInstructionG, parseGeminiResponse]
  rw [h]

/-- Witness for C1 (amended) at a concrete malformed response. -/
theorem C1_witness :
    parseInstructionG (.text "hello") "x" =
      { success := false
        error := some ("Failed to parse AI response: " ++ geminiErrMessage .noJson)
        suggestions := some aiFailureSuggestions } :=
  (C1_amended_malformed_is_structured_failure "x" "hello" .noJson).1 (by rfl)

/-- Counterexample to claim C2 as stated: with the adapter unavailable,
`parseInstruction("Flag any expense above $1,000")` does not produce the
claimed successful heuristic rule — none of the rule-type patterns matches
this instruction, so the fallback returns a structured failure. -/
theorem C2_counterexample_fallback_fails :
    parseInstructionG .unavailable "Flag any expense above $1,000" =
      { success := false
        error := some "Could not determine rule type. Please check your Gemini API configuration."
        suggestions := some
          ["Ensure VITE_GEMINI_API_KEY is set in your environment",
           "Try using more specific keywords like \"expense\", \"vendor\", \"category\"",
           "Include threshold amounts with $ symbol"] } := by
  decide

/-- Claim C2 (amended): with the adapter unavailable, the quoted instruction
yields `success:false` with error "Could not determine rule type. Please
check your Gemini API configuration." (no rule-type keyword such as "amount"
occurs in it); the variant "Flag any expense amount above $1,000" yields
exactly the originally claimed heuristic result: rule type
`expense_amount_threshold`, action `flag`, the single condition
`{field: amount, operator: gt, value: 1000}` and confidence score 0.6. -/
theorem C2_amended_keyword_variant :
    parseInstructionG .unavailable "Flag any expense above $1,000" =
      { success := false
        error := some "Could not determine rule type. Please check your Gemini API configuration."
        suggestions := some
          ["Ensure VITE_GEMINI_API_KEY is set in your environment",
           "Try using more specific keywords like \"expense\", \"vendor\", \"category\"",
           "Include threshold amounts with $ symbol"] } ∧
    parseInstructionG .unavailable "Flag any expense amount above $1,000" =
      { success := true
        rule := some
          { rule_type := "expense_amount_threshold"
            conditions := [{ field := "amount", operator := "gt", value := .num 1000 }]
            action := "flag"
            reason := "Flag based on expense amount_threshold"
            confidence_score := (6 : Rat) / 10 } } :=
  ⟨by decide, by rfl⟩

/-- Counterexample to claim C4 as stated: the run save → deactivate → save
(all with the same `(rule_type, conditions)` signature) ends with the second
save creating version 1 again, although version 1 already existed in that
lineage — the newly created version is not strictly greater than every
version previously existing in the lineage. -/
theorem C4_counterexample_version_reuse :
    c4save1.1.version = 1 ∧ c4save2.1.version = 1 ∧
    c4save2.1.rule_type = c4save1.1.rule_type ∧
    c4save2.1.conditions = c4save1.1.conditions ∧
    ¬ c4save1.1.version < c4save2.1.version ∧
    c4save2.2.rules.map (fun r => r.version) = [1, 1] := by
  decide

/-- Claim C4 (amended): a save that finds an active rule of the same
`(rule_type, conditions)` signature assigns version `found.version + 1`,
strictly greater than the version it supersedes; a save that finds no active
match assigns version 1 regardless of the versions already present in the
lineage, so after `deactivate` or `rollback` a lineage's version numbers can
repeat. -/
theorem C4_amended_version_assignment (s : StorageState) (pr : ParsedRule)
    (o cb now : String) :
    (∀ e, s.rules.find? (activeMatch pr) = some e →
      (saveRule pr o cb now s).1.version = e.version + 1 ∧
      e.version < (saveRule pr o cb now s).1.version) ∧
    (s.rules.find? (activeMatch pr) = none → (saveRule pr o cb now s).1.version = 1) := by
  constructor
  · intro e he
    constructor
    · simp [saveRule, he]
    · simp only [saveRule, he]
      omega
  · intro hn
    simp only [saveRule, hn]

/-- Witness for C4 (amended): on the empty store no active match exists and
the created version is 1. -/
theorem C4_witness :
    (saveRule samplePR "i" "u" "t" emptyState).1.version = 1 :=
  (C4_amended_version_assignment emptyState samplePR "i" "u" "t").2 (by rfl)

/-- Claim C10 (confirmed): a successful rollback deactivates every other
active rule sharing the target's `rule_type` — in particular the active rule
of a different lineage (different `conditions`) of the same type, because the
deactivation loop matches on `rule_type` alone. -/
theorem C10_rollback_deactivates_sibling_lineage (s : StorageState) (t : String)
    (v : Int) (i j : Nat) (target r₂ : AuditRule)
    (hfind : findIndexB (fun r => decide (r.rule_type = t) && decide (r.version = v))
      s.rules = some i)
    (htarget : s.rules[i]? = some target)
    (hj : s.rules[j]? = some r₂)
    (htype : r₂.rule_type = t)
    (hact : r₂.is_active = true)
    (hcond : r₂.conditions ≠ target.conditions)
    (hne : j ≠ i) :
    (rollbackToVersion t v s).1.isSome = true ∧
    (rollbackToVersion t v s).2.rules[j]? = some { r₂ with is_active := false } := by
  simp only [rollbackToVersion, hfind]
  constructor
  · have hi : i < s.rules.length := findIndexB_lt_length hfind
    have hlen : i < (modifyIdx (fun r => { r with is_active := true }) i
        (s.rules.map fun r =>
          if decide (r.rule_type = t) && r.is_active then { r with is_active := false }
          else r)).length := by
      rw [modifyIdx_length, List.length_map]
      exact hi
    rw [List.getElem?_eq_getElem hlen]
    rfl
  · rw [getElem?_modifyIdx_ne _ _ hne, List.getElem?_map, hj]
    have hb : (decide (r₂.rule_type = t) && r₂.is_active) = true := by
      simp [htype, hact]
    simp [hb]
    intro hcontra
    have hfalse := hcontra htype
    rw [hact] at hfalse
    cases hfalse

theorem saveRule_post (s : StorageState) (pr : ParsedRule) (o cb now : String)
    (huniq : s.rules.countP (activeMatch pr) ≤ 1) :
    (saveRule pr o cb now s).1.id = s.nextId ∧
    (saveRule pr o cb now s).2.nextId = s.nextId + 1 ∧
    (saveRule pr o cb now s).1 ∈ (saveRule pr o cb now s).2.rules ∧
    (saveRule pr o cb now s).2.rules.find? (activeMatch pr) = some (saveRule pr o cb now s).1 := by
  match hfind : s.rules.find? (activeMatch pr) with
  | none =>
    simp only [saveRule, hfind]
    refine ⟨by trivial, by trivial, List.mem_append_right _ (List.mem_cons_self _ _), ?_⟩
    rw [find?_append_none hfind]
    rw [List.find?_cons_of_pos]
    simp [activeMatch]
  | some e =>
    have h3 : e.rule_type = pr.rule_type ∧ e.is_active = true ∧ e.conditions = pr.conditions := by
      have hm := List.find?_some hfind
      simp only [activeMatch, Bool.and_eq_true, decide_eq_true_eq] at hm
      exact ⟨hm.1.1, hm.1.2, hm.2⟩
    simp only [saveRule, hfind]
    refine ⟨by trivial, by trivial, List.mem_append_right _ (List.mem_cons_self _ _), ?_⟩
    rw [find?_append_none ?hnone]
    case hnone =>
      rw [List.find?_eq_none]
      intro x hx
      obtain ⟨r, hr, rfl⟩ := List.mem_map.mp hx
      by_cases hid : r.id = e.id
      · rw [if_pos hid]
        simp [activeMatch]
      · rw [if_neg hid]
        intro habs
        exact hid (congrArg AuditRule.id (find?_countP_unique hfind huniq r hr habs))
    rw [List.find?_cons_of_pos]
    simp [activeMatch, h3.1, h3.2.1, h3.2.2]

theorem saveRule_clone_shape (s1 : StorageState) (pr : ParsedRule) (o cb now : String)
    (r1 : AuditRule) (hfind : s1.rules.find? (activeMatch pr) = some r1)
    (hmem : r1 ∈ s1.rules) (hidne : s1.nextId ≠ r1.id) :
    (saveRule pr o cb now s1).1.id = s1.nextId ∧
    (saveRule pr o cb now s1).1.version = r1.version + 1 ∧
    (∃ r ∈ (saveRule pr o cb now s1).2.rules, r.id = r1.id) ∧
    (∀ r ∈ (saveRule pr o cb now s1).2.rules, r.id = r1.id → r.is_active = false) := by
  simp only [saveRule, hfind]
  refine ⟨by trivial, by trivial, ?_, ?_⟩
  · refine ⟨{ r1 with is_active := false }, ?_, rfl⟩
    apply List.mem_append_left
    have himg := List.mem_map_of_mem
      (fun r => if r.id = r1.id then { r1 with is_active := false } else r) hmem
    simpa using himg
  · intro r hr hid
    rcases List.mem_append.mp hr with hmap | hlast
    · obtain ⟨x, hx, rfl⟩ := List.mem_map.mp hmap
      by_cases hxid : x.id = r1.id
      · simp [hxid]
      · simp [hxid] at hid
    · rw [List.mem_singleton.mp hlast] at hid
      exact absurd hid hidne

/-- Counterexample to claim C5 as stated: in a store holding two active rules
of the same `(rule_type, conditions)` signature (importable via
`importRules`), the two saves clone different rules: the second save's
version is not the first save's version plus one, and the first save's rule
is still active after the second save. -/
theorem C5_counterexample_two_active :
    c5save1.1.version = 10 ∧ c5save2.1.version = 6 ∧
    c5save2.1.version ≠ c5save1.1.version + 1 ∧
    (c5save2.2.rules.any fun r => decide (r.id = c5save1.1.id) && r.is_active) = true := by
  decide

/-- Claim C5 (amended): in every store holding at most one active rule of the
saved `(rule_type, conditions)` signature — the invariant `saveRule` and
`rollbackToVersion` maintain — two successive saves of the same signature
produce two entries with different identifiers, the second with
`version = first.version + 1`, and the first entry inactive after the second
save. -/
theorem C5_amended_unique_active (s : StorageState) (pr : ParsedRule)
    (o1 cb1 t1 o2 cb2 t2 : String)
    (huniq : s.rules.countP (activeMatch pr) ≤ 1) :
    (saveRule pr o1 cb1 t1 s).1.id ≠
      (saveRule pr o2 cb2 t2 (saveRule pr o1 cb1 t1 s).2).1.id ∧
    (saveRule pr o2 cb2 t2 (saveRule pr o1 cb1 t1 s).2).1.version =
      (saveRule pr o1 cb1 t1 s).1.version + 1 ∧
    (∃ r ∈ (saveRule pr o2 cb2 t2 (saveRule pr o1 cb1 t1 s).2).2.rules,
      r.id = (saveRule pr o1 cb1 t1 s).1.id) ∧
    (∀ r ∈ (saveRule pr o2 cb2 t2 (saveRule pr o1 cb1 t1 s).2).2.rules,
      r.id = (saveRule pr o1 cb1 t1 s).1.id → r.is_active = false) := by
  obtain ⟨hid1, hnext1, hmem1, hfind1⟩ := saveRule_post s pr o1 cb1 t1 huniq
  have hidne : (saveRule pr o1 cb1 t1 s).2.nextId ≠ (saveRule pr o1 cb1 t1 s).1.id := by
    rw [hnext1, hid1]
    omega
  obtain ⟨hid2, hver2, hex2, hall2⟩ :=
    saveRule_clone_shape (saveRule pr o1 cb1 t1 s).2 pr o2 cb2 t2
      (saveRule pr o1 cb1 t1 s).1 hfind1 hmem1 hidne
  refine ⟨?_, hver2, hex2, hall2⟩
  rw [hid1, hid2, hnext1]
  omega

/-- Witness for C5 (amended): two saves on the empty store create versions 1
and 2 with distinct identifiers, the first deactivated. -/
theorem C5_witness :
    (saveRule samplePR "i1" "u1" "t1" emptyState).1.id ≠
      (saveRule samplePR "i2" "u2" "t2" (saveRule samplePR "i1" "u1" "t1" emptyState).2).1.id ∧
    (saveRule samplePR "i2" "u2" "t2" (saveRule samplePR "i1" "u1" "t1" emptyState).2).1.version =
      (saveRule samplePR "i1" "u1" "t1" emptyState).1.version + 1 ∧
    (∃ r ∈ (saveRule samplePR "i2" "u2" "t2"
        (saveRule samplePR "i1" "u1" "t1" emptyState).2).2.rules,
      r.id = (saveRule samplePR "i1" "u1" "t1" emptyState).1.id) ∧
    (∀ r ∈ (saveRule samplePR "i2" "u2" "t2"
        (saveRule samplePR "i1" "u1" "t1" emptyState).2).2.rules,
      r.id = (saveRule samplePR "i1" "u1" "t1" emptyState).1.id → r.is_active = false) :=
  C5_amended_unique_active emptyState samplePR "i1" "u1" "t1" "i2" "u2" "t2" (by decide)

/-- Witness for C10 on a concrete two-lineage store. -/
theorem C10_witness :
    (rollbackToVersion "expense_amount_threshold" 3 c10S).1.isSome = true ∧
    (rollbackToVersion "expense_amount_threshold" 3 c10S).2.rules[1]? =
      some { c10B with is_active := false } :=
  C10_rollback_deactivates_sibling_lineage c10S "expense_amount_threshold" 3 0 1 c10A c10B
    (by decide) (by decide) (by decide) (by decide) (by decide) (by decide) (by decide)

end Numina
